import Mathlib

/-!
Verification of the chess move-selection engine in
`chess_app/ai/chess_ai.py` (class `ChessAI`).

The rules engine (python-chess) is external to the repository: boards and
moves are opaque values consumed through a narrow interface
(`legal_moves`, `push`/`pop`, `turn`, terminal predicates, piece lookups).
We therefore embed the AI over an abstract `Game` interface whose
operations mirror exactly the python-chess calls that `ChessAI` makes;
every function of `ChessAI` is translated faithfully from the source.

Numeric conventions: python floats here only ever hold integer scores or
the infinities `float('-inf')` / `float('inf')`, so scores are modelled as
`EInt := WithBot (WithTop ℤ)` (integers with `⊥ = -inf` and `⊤ = +inf`).
Randomness (`random.random`, `random.choice`, `random.shuffle`) is
modelled by an explicit stream of draws (`RandSrc`).  The in-place board
mutation done by `board.push`/`board.pop` is modelled by threading an
explicit board-plus-undo-stack state (`BState`).
-/

/-- Scores with `-inf` and `+inf` sentinels, as used for alpha/beta bounds. -/
abbrev EInt := WithBot (WithTop ℤ)

/-- Embed a finite integer score into `EInt`. -/
def EInt.ofInt (n : ℤ) : EInt := ((n : WithTop ℤ) : EInt)

/-- The six chess piece types (`chess.PAWN` .. `chess.KING`). -/
inductive PieceType where
  | pawn | knight | bishop | rook | queen | king
deriving DecidableEq

/-- Abstract interface to the external rules engine (python-chess `Board`).
`B` is the type of board positions, `M` the type of moves.  A colour is a
`Bool` with `true` = White (`chess.WHITE == True`).  Squares are numbers
`0..63` exactly as in python-chess. -/
structure Game where
  B : Type
  M : Type
  legal_moves : B → List M
  push : B → M → B
  turn : B → Bool
  is_game_over : B → Bool
  is_checkmate : B → Bool
  is_stalemate : B → Bool
  is_insufficient_material : B → Bool
  is_capture : B → M → Bool
  gives_check : B → M → Bool
  pieces : B → PieceType → Bool → Nat
  piece_at : B → Nat → Option (Bool × PieceType)
  king : B → Bool → Option Nat

/-- Configuration state of `ChessAI` (set by `set_difficulty`). -/
structure ChessAI where
  difficulty : String
  search_depth : Nat
  use_opening_book : Bool
  use_positional : Bool
deriving DecidableEq

/-- `ChessAI.PIECE_VALUES`. -/
def PIECE_VALUES : PieceType → ℤ
  | .pawn => 100
  | .knight => 320
  | .bishop => 330
  | .rook => 500
  | .queen => 900
  | .king => 20000

/-- `chess.PIECE_TYPES` in python-chess order. -/
def PIECE_TYPES : List PieceType :=
  [.pawn, .knight, .bishop, .rook, .queen, .king]

/-- `ChessAI.PAWN_TABLE`. -/
def PAWN_TABLE : List ℤ :=
  [0,  0,  0,  0,  0,  0,  0,  0,
   50, 50, 50, 50, 50, 50, 50, 50,
   10, 10, 20, 30, 30, 20, 10, 10,
   5,  5, 10, 25, 25, 10,  5,  5,
   0,  0,  0, 20, 20,  0,  0,  0,
   5, -5,-10,  0,  0,-10, -5,  5,
   5, 10, 10,-20,-20, 10, 10,  5,
   0,  0,  0,  0,  0,  0,  0,  0]

/-- `ChessAI.KNIGHT_TABLE`. -/
def KNIGHT_TABLE : List ℤ :=
  [-50,-40,-30,-30,-30,-30,-40,-50,
   -40,-20,  0,  0,  0,  0,-20,-40,
   -30,  0, 10, 15, 15, 10,  0,-30,
   -30,  5, 15, 20, 20, 15,  5,-30,
   -30,  0, 15, 20, 20, 15,  0,-30,
   -30,  5, 10, 15, 15, 10,  5,-30,
   -40,-20,  0,  5,  5,  0,-20,-40,
   -50,-40,-30,-30,-30,-30,-40,-50]

/-- `ChessAI.BISHOP_TABLE`. -/
def BISHOP_TABLE : List ℤ :=
  [-20,-10,-10,-10,-10,-10,-10,-20,
   -10,  0,  0,  0,  0,  0,  0,-10,
   -10,  0, 10, 10, 10, 10,  0,-10,
   -10,  5,  5, 10, 10,  5,  5,-10,
   -10,  0,  5, 10, 10,  5,  0,-10,
   -10,  5,  5,  5,  5,  5,  5,-10,
   -10,  0,  5,  0,  0,  5,  0,-10,
   -20,-10,-10,-10,-10,-10,-10,-20]

/-- `ChessAI.ROOK_TABLE`. -/
def ROOK_TABLE : List ℤ :=
  [0,  0,  0,  0,  0,  0,  0,  0,
   5, 10, 10, 10, 10, 10, 10,  5,
   -5,  0,  0,  0,  0,  0,  0, -5,
   -5,  0,  0,  0,  0,  0,  0, -5,
   -5,  0,  0,  0,  0,  0,  0, -5,
   -5,  0,  0,  0,  0,  0,  0, -5,
   -5,  0,  0,  0,  0,  0,  0, -5,
   0,  0,  0,  5,  5,  0,  0,  0]

/-- `ChessAI.QUEEN_TABLE`. -/
def QUEEN_TABLE : List ℤ :=
  [-20,-10,-10, -5, -5,-10,-10,-20,
   -10,  0,  0,  0,  0,  0,  0,-10,
   -10,  0,  5,  5,  5,  5,  0,-10,
   -5,  0,  5,  5,  5,  5,  0, -5,
   0,  0,  5,  5,  5,  5,  0, -5,
   -10,  5,  5,  5,  5,  5,  0,-10,
   -10,  0,  5,  0,  0,  0,  0,-10,
   -20,-10,-10, -5, -5,-10,-10,-20]

/-- `ChessAI.KING_MIDDLE_GAME_TABLE`. -/
def KING_MIDDLE_GAME_TABLE : List ℤ :=
  [-30,-40,-40,-50,-50,-40,-40,-30,
   -30,-40,-40,-50,-50,-40,-40,-30,
   -30,-40,-40,-50,-50,-40,-40,-30,
   -30,-40,-40,-50,-50,-40,-40,-30,
   -20,-30,-30,-40,-40,-30,-30,-20,
   -10,-20,-20,-20,-20,-20,-20,-10,
   20, 20,  0,  0,  0,  0, 20, 20,
   20, 30, 10,  0,  0, 10, 30, 20]

/-- `ChessAI.KING_END_GAME_TABLE`. -/
def KING_END_GAME_TABLE : List ℤ :=
  [-50,-40,-30,-20,-20,-30,-40,-50,
   -30,-20,-10,  0,  0,-10,-20,-30,
   -30,-10, 20, 30, 30, 20,-10,-30,
   -30,-10, 30, 40, 40, 30,-10,-30,
   -30,-10, 30, 40, 40, 30,-10,-30,
   -30,-10, 20, 30, 30, 20,-10,-30,
   -30,-30,  0,  0,  0,  0,-30,-30,
   -50,-30,-30,-30,-30,-30,-30,-50]

/-- `ChessAI.set_difficulty`: lowercase, validate against the three names
(defaulting to medium), then replace the whole configuration. -/
def set_difficulty (_ai : ChessAI) (difficulty : String) : ChessAI :=
  let d := difficulty.toLower
  let d := if d ∈ ["easy", "medium", "hard"] then d else "medium"
  if d = "easy" then ⟨d, 1, false, false⟩
  else if d = "medium" then ⟨d, 2, true, true⟩
  else ⟨d, 3, true, true⟩

/-- `ChessAI._evaluate_material`: per piece type, add White's count times
the piece value and subtract Black's count times the piece value. -/
def evaluate_material (g : Game) (b : g.B) : ℤ :=
  PIECE_TYPES.foldl (fun score pt =>
    score + (g.pieces b pt true : ℤ) * PIECE_VALUES pt
          - (g.pieces b pt false : ℤ) * PIECE_VALUES pt) 0

/-- `chess.square_mirror`: flip a square index vertically (xor with 56). -/
def square_mirror (sq : Nat) : Nat := sq ^^^ 56

/-- `ChessAI._is_endgame`: both queens gone, or both sides under 13 points
of non-pawn material. -/
def is_endgame (g : Game) (b : g.B) : Bool :=
  let wq := g.pieces b .queen true
  let bq := g.pieces b .queen false
  if wq == 0 && bq == 0 then true
  else
    let wm := g.pieces b .knight true * 3 + g.pieces b .bishop true * 3 +
              g.pieces b .rook true * 5 + wq * 9
    let bm := g.pieces b .knight false * 3 + g.pieces b .bishop false * 3 +
              g.pieces b .rook false * 5 + bq * 9
    decide (wm < 13) && decide (bm < 13)

/-- `ChessAI._evaluate_position_score`: piece-square table lookups over the
64 squares, with the index mirrored for Black pieces; add for White,
subtract for Black.  (Python indexes the table lists directly; `getD _ 0`
is total but agrees on all indices `0..63` that can occur.) -/
def evaluate_position_score (g : Game) (b : g.B) : ℤ :=
  let endgame := is_endgame g b
  (List.range 64).foldl (fun score square =>
    match g.piece_at b square with
    | none => score
    | some pc =>
      let square_idx := if pc.1 then square else square_mirror square
      let value : ℤ :=
        match pc.2 with
        | .pawn => PAWN_TABLE.getD square_idx 0
        | .knight => KNIGHT_TABLE.getD square_idx 0
        | .bishop => BISHOP_TABLE.getD square_idx 0
        | .rook => ROOK_TABLE.getD square_idx 0
        | .queen => QUEEN_TABLE.getD square_idx 0
        | .king =>
          if endgame then KING_END_GAME_TABLE.getD square_idx 0
          else KING_MIDDLE_GAME_TABLE.getD square_idx 0
      if pc.1 then score + value else score - value) 0

/-- Chebyshev distance between two natural numbers. -/
def natDist (a b : Nat) : Nat := max (a - b) (b - a)

/-- `chess.BB_KING_ATTACKS[sq]` as a square list: the squares at Chebyshev
distance 1 from `sq` (the 8 or fewer squares a king can step to). -/
def king_zone (sq : Nat) : List Nat :=
  (List.range 64).filter (fun t =>
    decide (max (natDist (sq % 8) (t % 8)) (natDist (sq / 8) (t / 8)) = 1))

/-- `ChessAI._evaluate_king_safety`: count friendly pieces in each king's
zone; White defenders count `+10` each, Black defenders `-10` each; `0` if
either king is missing. -/
def evaluate_king_safety (g : Game) (b : g.B) : ℤ :=
  match g.king b true, g.king b false with
  | some wk, some bk =>
    let white_defenders := ((king_zone wk).filter (fun s =>
      match g.piece_at b s with
      | some pc => pc.1
      | none => false)).length
    let black_defenders := ((king_zone bk).filter (fun s =>
      match g.piece_at b s with
      | some pc => !pc.1
      | none => false)).length
    (white_defenders : ℤ) * 10 - (black_defenders : ℤ) * 10
  | _, _ => 0

/-- `ChessAI._evaluate_position`, with `self.use_positional` passed
explicitly: mate sentinels, draw zeros, else
material + positional + mobility + king safety, negated for Black to
move. -/
def evaluate_position_core (g : Game) (use_positional : Bool) (b : g.B) : ℤ :=
  if g.is_checkmate b then (if g.turn b then -10000 else 10000)
  else if g.is_stalemate b || g.is_insufficient_material b then 0
  else
    let material_score := evaluate_material g b
    let positional_score := if use_positional then evaluate_position_score g b else 0
    let mobility_score : ℤ :=
      if g.turn b then ((g.legal_moves b).length : ℤ) * 5
      else -(((g.legal_moves b).length : ℤ) * 5)
    let king_safety := evaluate_king_safety g b
    let total_score := material_score + positional_score + mobility_score + king_safety
    if g.turn b then total_score else -total_score

/-- `ChessAI._evaluate_position` as a method of the configured AI. -/
def ChessAI.evaluatePosition (ai : ChessAI) (g : Game) (b : g.B) : ℤ :=
  evaluate_position_core g ai.use_positional b

/-- Explicit random source: `floats` models successive results of
`random.random()`, `picks` models the successive indices drawn by
`random.choice` / `random.shuffle`. -/
structure RandSrc where
  floats : List ℚ
  picks : List Nat
deriving DecidableEq

/-- Consume one `random.random()` draw. -/
def RandSrc.nextFloat (r : RandSrc) : ℚ × RandSrc :=
  (r.floats.headD 0, ⟨r.floats.tail, r.picks⟩)

/-- `random.choice(xs)`: pick an element at a drawn index; `none` models
the exception Python raises on an empty sequence. -/
def randChoice {α : Type} (xs : List α) (r : RandSrc) : Option α × RandSrc :=
  (xs.get? (r.picks.headD 0 % xs.length), ⟨r.floats, r.picks.tail⟩)

/-- `random.shuffle` modelled as drawing a permutation: repeatedly draw an
index and move that element to the front of the remainder.  The fuel is
the list length at the top-level call. -/
def shuffleGo {α : Type} : Nat → RandSrc → List α → List α × RandSrc
  | 0, r, _ => ([], r)
  | _ + 1, r, [] => ([], r)
  | fuel + 1, r, x :: xs =>
    let i : Fin (x :: xs).length :=
      ⟨r.picks.headD 0 % (x :: xs).length, Nat.mod_lt _ (Nat.succ_pos _)⟩
    let r' : RandSrc := ⟨r.floats, r.picks.tail⟩
    let rest := shuffleGo fuel r' ((x :: xs).eraseIdx i.val)
    ((x :: xs).get i :: rest.1, rest.2)

/-- `random.shuffle(xs)` (the in-place mutation is modelled by returning
the permuted list). -/
def shuffle {α : Type} (xs : List α) (r : RandSrc) : List α × RandSrc :=
  shuffleGo xs.length r xs

/-- Board state as mutated in place by `board.push` / `board.pop`: the
current position plus the stack of saved previous positions. -/
structure BState (g : Game) where
  cur : g.B
  stack : List g.B

/-- `board.push(move)`. -/
def pushB (g : Game) (bs : BState g) (m : g.M) : BState g :=
  ⟨g.push bs.cur m, bs.cur :: bs.stack⟩

/-- `board.pop()` (identity on an empty stack, which the AI never hits). -/
def popB (g : Game) (bs : BState g) : BState g :=
  match bs.stack with
  | [] => bs
  | p :: rest => ⟨p, rest⟩

/-- The maximizing-branch move loop of `ChessAI._minimax`, state-threaded:
push, recurse (through `f`), pop, take the max, raise alpha, beta cutoff. -/
def maxLoopS (g : Game) (f : BState g → EInt → EInt → EInt × BState g) :
    List g.M → BState g → EInt → EInt → EInt → EInt × BState g
  | [], bs, value, _, _ => (value, bs)
  | m :: ms, bs, value, alpha, beta =>
    let bs1 := pushB g bs m
    let p := f bs1 alpha beta
    let bs3 := popB g p.2
    let value' := max value p.1
    let alpha' := max alpha value'
    if beta ≤ alpha' then (value', bs3)
    else maxLoopS g f ms bs3 value' alpha' beta

/-- The minimizing-branch move loop of `ChessAI._minimax`, state-threaded:
push, recurse (through `f`), pop, take the min, lower beta, alpha cutoff. -/
def minLoopS (g : Game) (f : BState g → EInt → EInt → EInt × BState g) :
    List g.M → BState g → EInt → EInt → EInt → EInt × BState g
  | [], bs, value, _, _ => (value, bs)
  | m :: ms, bs, value, alpha, beta =>
    let bs1 := pushB g bs m
    let p := f bs1 alpha beta
    let bs3 := popB g p.2
    let value' := min value p.1
    let beta' := min beta value'
    if beta' ≤ alpha then (value', bs3)
    else minLoopS g f ms bs3 value' alpha beta'

/-- `ChessAI._minimax(board, depth, alpha, beta, maximizing)`, with the
evaluation function `ev` standing for `self._evaluate_position` and the
board mutation threaded through `BState`. -/
def minimaxS (g : Game) (ev : g.B → ℤ) :
    Nat → BState g → EInt → EInt → Bool → EInt × BState g
  | 0, bs, _, _, _ => (EInt.ofInt (ev bs.cur), bs)
  | d + 1, bs, alpha, beta, maximizing =>
    if g.is_game_over bs.cur then (EInt.ofInt (ev bs.cur), bs)
    else if maximizing then
      maxLoopS g (fun bs1 a bb => minimaxS g ev d bs1 a bb false)
        (g.legal_moves bs.cur) bs ⊥ alpha beta
    else
      minLoopS g (fun bs1 a bb => minimaxS g ev d bs1 a bb true)
        (g.legal_moves bs.cur) bs ⊤ alpha beta

/-- Pure value shadow of `maxLoopS` (no board state). -/
def abMaxLoop (g : Game) (f : g.B → EInt → EInt → EInt) (b : g.B) :
    List g.M → EInt → EInt → EInt → EInt
  | [], value, _, _ => value
  | m :: ms, value, alpha, beta =>
    let v := f (g.push b m) alpha beta
    let value' := max value v
    let alpha' := max alpha value'
    if beta ≤ alpha' then value'
    else abMaxLoop g f b ms value' alpha' beta

/-- Pure value shadow of `minLoopS` (no board state). -/
def abMinLoop (g : Game) (f : g.B → EInt → EInt → EInt) (b : g.B) :
    List g.M → EInt → EInt → EInt → EInt
  | [], value, _, _ => value
  | m :: ms, value, alpha, beta =>
    let v := f (g.push b m) alpha beta
    let value' := min value v
    let beta' := min beta value'
    if beta' ≤ alpha then value'
    else abMinLoop g f b ms value' alpha beta'

/-- Pure value shadow of `minimaxS`. -/
def abMinimax (g : Game) (ev : g.B → ℤ) :
    Nat → g.B → EInt → EInt → Bool → EInt
  | 0, b, _, _, _ => EInt.ofInt (ev b)
  | d + 1, b, alpha, beta, maximizing =>
    if g.is_game_over b then EInt.ofInt (ev b)
    else if maximizing then
      abMaxLoop g (fun c a bb => abMinimax g ev d c a bb false)
        b (g.legal_moves b) ⊥ alpha beta
    else
      abMinLoop g (fun c a bb => abMinimax g ev d c a bb true)
        b (g.legal_moves b) ⊤ alpha beta

/-- Modelled from the spec: an unpruned full minimax search of the same
position at the same depth ("pruning changes only the set of nodes
visited, never the returned value"). -/
def fullMinimax (g : Game) (ev : g.B → ℤ) : Nat → g.B → Bool → EInt
  | 0, b, _ => EInt.ofInt (ev b)
  | d + 1, b, maximizing =>
    if g.is_game_over b then EInt.ofInt (ev b)
    else if maximizing then
      ((g.legal_moves b).map (fun m => fullMinimax g ev d (g.push b m) false)).foldl max ⊥
    else
      ((g.legal_moves b).map (fun m => fullMinimax g ev d (g.push b m) true)).foldl min ⊤

/-- The tail of `ChessAI._get_easy_move` from the checking-moves test
onward (reached both when no captures exist and when the 80% capture roll
fails). -/
def easy_check_phase (g : Game) (b : g.B) (legal_moves : List g.M) (r : RandSrc) :
    Option g.M × RandSrc :=
  let checking_moves := legal_moves.filter (fun m => g.gives_check b m)
  if !checking_moves.isEmpty then
    let p := r.nextFloat
    if p.1 < (7 : ℚ)/10 then randChoice checking_moves p.2
    else randChoice legal_moves p.2
  else randChoice legal_moves r

/-- `ChessAI._get_easy_move`: 10% fully random, else prefer captures with
probability 0.8, else prefer checks with probability 0.7, else random. -/
def get_easy_move (g : Game) (b : g.B) (legal_moves : List g.M) (r : RandSrc) :
    Option g.M × RandSrc :=
  let p1 := r.nextFloat
  if p1.1 < (1 : ℚ)/10 then randChoice legal_moves p1.2
  else
    let capturing_moves := legal_moves.filter (fun m => g.is_capture b m)
    if !capturing_moves.isEmpty then
      let p2 := p1.2.nextFloat
      if p2.1 < (8 : ℚ)/10 then randChoice capturing_moves p2.2
      else easy_check_phase g b legal_moves p2.2
    else easy_check_phase g b legal_moves p1.2

/-- The root move loop of `ChessAI.get_best_move` at one depth: push,
minimax for the opponent, pop, keep the strictly better move, raise
alpha.  `cur` is `(current_best_move, current_best_value)`; the result is
`(cur', alpha', board state)`.  There is no cutoff test at the root. -/
def rootMoveLoop (g : Game) (ev : g.B → ℤ) (d : Nat) :
    List g.M → BState g → Option g.M × EInt → EInt → EInt →
      (Option g.M × EInt) × EInt × BState g
  | [], bs, cur, alpha, _ => (cur, alpha, bs)
  | m :: ms, bs, cur, alpha, beta =>
    let bs1 := pushB g bs m
    let p := minimaxS g ev d bs1 alpha beta false
    let bs3 := popB g p.2
    let cur' := if cur.2 < p.1 then (some m, p.1) else cur
    let alpha' := max alpha cur'.2
    rootMoveLoop g ev d ms bs3 cur' alpha' beta

/-- The iterative-deepening loop of `ChessAI.get_best_move`: per depth the
current best starts over at `(None, -inf)`, while `alpha` (and the unused
`beta`) are threaded across depth iterations exactly as in the source;
`best` is the provisional `(best_move, best_value)` pair. -/
def idLoop (g : Game) (ev : g.B → ℤ) (moves : List g.M) :
    List Nat → BState g → Option g.M × EInt → EInt → EInt →
      (Option g.M × EInt) × EInt × BState g
  | [], bs, best, alpha, _ => (best, alpha, bs)
  | dpt :: ds, bs, best, alpha, beta =>
    let q := rootMoveLoop g ev (dpt - 1) moves bs (none, ⊥) alpha beta
    let best' :=
      match q.1.1 with
      | some _ => q.1
      | none => best
    idLoop g ev moves ds q.2.2 best' q.2.1 beta

/-- `ChessAI.get_best_move`: empty move list gives the `None` sentinel;
easy difficulty delegates to the easy policy; otherwise shuffle once, run
iterative deepening for depths `1..search_depth` with `alpha = -inf`,
`beta = +inf` initialized once before the loop, and fall back to a random
legal move when no best move was recorded (`best_move or
random.choice(legal_moves)`). -/
def get_best_move (g : Game) (ai : ChessAI) (bs : BState g) (r : RandSrc) :
    Option g.M × BState g × RandSrc :=
  let legal_moves := g.legal_moves bs.cur
  if legal_moves.isEmpty then (none, bs, r)
  else if ai.difficulty = "easy" then
    let p := get_easy_move g bs.cur legal_moves r
    (p.1, bs, p.2)
  else
    let s := shuffle legal_moves r
    let q := idLoop g (evaluate_position_core g ai.use_positional) s.1
      (List.range' 1 ai.search_depth) bs (none, ⊥) ⊥ ⊤
    match q.1.1 with
    | some m => (some m, q.2.2, s.2)
    | none =>
      let c := randChoice s.1 s.2
      (c.1, q.2.2, c.2)

/-- One depth iteration of the root search, as a fold step.  The entry
alpha is whatever alpha the previous depth iteration ended with, beta is
`+inf`, the move list is the one shuffled ordering. -/
def depthStep (g : Game) (ev : g.B → ℤ) (moves : List g.M)
    (st : (Option g.M × EInt) × EInt × BState g) (dpt : Nat) :
    (Option g.M × EInt) × EInt × BState g :=
  let q := rootMoveLoop g ev (dpt - 1) moves st.2.2 (none, ⊥) st.2.1 ⊤
  (match q.1.1 with
   | some _ => q.1
   | none => st.1, q.2.1, q.2.2)

/-- Iterative deepening with the alpha accumulated at one depth carried
into the next depth's root search (beta stays `+inf`, the shuffled move
ordering is reused), written as a fold of `depthStep`. -/
def get_best_move_carry (g : Game) (ai : ChessAI) (bs : BState g) (r : RandSrc) :
    Option g.M × BState g × RandSrc :=
  let legal_moves := g.legal_moves bs.cur
  if legal_moves.isEmpty then (none, bs, r)
  else if ai.difficulty = "easy" then
    let p := get_easy_move g bs.cur legal_moves r
    (p.1, bs, p.2)
  else
    let s := shuffle legal_moves r
    let q := (List.range' 1 ai.search_depth).foldl
      (depthStep g (evaluate_position_core g ai.use_positional) s.1)
      ((none, ⊥), ⊥, bs)
    match q.1.1 with
    | some m => (some m, q.2.2, s.2)
    | none =>
      let c := randChoice s.1 s.2
      (c.1, q.2.2, c.2)

/-- Modelled from the spec: the iterative-deepening loop as the spec
describes it, where every depth iteration "starts fresh alpha/beta"
(alpha reset to `-inf` and beta to `+inf` at the start of each depth)
while keeping the same shuffled move ordering. -/
def idLoopFresh (g : Game) (ev : g.B → ℤ) (moves : List g.M) :
    List Nat → BState g → Option g.M × EInt → (Option g.M × EInt) × BState g
  | [], bs, best => (best, bs)
  | dpt :: ds, bs, best =>
    let q := rootMoveLoop g ev (dpt - 1) moves bs (none, ⊥) ⊥ ⊤
    idLoopFresh g ev moves ds q.2.2
      (match q.1.1 with
       | some _ => q.1
       | none => best)

/-- Modelled from the spec: `get_best_move` as claimed, with fresh
alpha/beta bounds at the start of every depth iteration of the
iterative-deepening loop and the same shuffled root move ordering. -/
def get_best_move_fresh (g : Game) (ai : ChessAI) (bs : BState g) (r : RandSrc) :
    Option g.M × BState g × RandSrc :=
  let legal_moves := g.legal_moves bs.cur
  if legal_moves.isEmpty then (none, bs, r)
  else if ai.difficulty = "easy" then
    let p := get_easy_move g bs.cur legal_moves r
    (p.1, bs, p.2)
  else
    let s := shuffle legal_moves r
    let q := idLoopFresh g (evaluate_position_core g ai.use_positional) s.1
      (List.range' 1 ai.search_depth) bs (none, ⊥)
    match q.1.1 with
    | some m => (some m, q.2, s.2)
    | none =>
      let c := randChoice s.1 s.2
      (c.1, q.2, c.2)

/-- A small concrete game used as a test position: board `0` (White to
move) has two moves leading to boards `1` and `2` (Black to move), which
in turn lead to the terminal boards `3`, `4` and `5`, `6`.  Material is
chosen so that the static evaluations are `510`, `10` for boards `1`, `2`
and `1000`, `0`, `400`, `-1000` for boards `3`..`6`. -/
@[reducible] def gEx : Game where
  B := Nat
  M := Nat
  legal_moves := fun b => if b ≤ 2 then [0, 1] else []
  push := fun b m =>
    match b, m with
    | 0, 0 => 1
    | 0, 1 => 2
    | 1, 0 => 3
    | 1, 1 => 4
    | 2, 0 => 5
    | 2, 1 => 6
    | _, _ => 0
  turn := fun b => !(b = 1 || b = 2)
  is_game_over := fun b => decide (3 ≤ b)
  is_checkmate := fun _ => false
  is_stalemate := fun _ => false
  is_insufficient_material := fun _ => false
  is_capture := fun _ _ => false
  gives_check := fun _ _ => false
  pieces := fun b t c =>
    match b, t, c with
    | 1, .pawn, false => 5
    | 3, .pawn, true => 10
    | 5, .pawn, true => 4
    | 6, .pawn, false => 10
    | _, _, _ => 0
  piece_at := fun _ _ => none
  king := fun _ _ => none

/-- A concrete game exercising the evaluator's terminal and non-terminal
branches: board `0` is checkmate with White to move, board `1` checkmate
with Black to move, board `2` stalemate, board `3` insufficient material,
and board `4` an ordinary position with both kings on the board. -/
@[reducible] def gEval : Game where
  B := Nat
  M := Nat
  legal_moves := fun b => if b = 4 then [0] else []
  push := fun _ _ => 0
  turn := fun b => !(b = 1)
  is_game_over := fun b => decide (b ≤ 3)
  is_checkmate := fun b => b = 0 || b = 1
  is_stalemate := fun b => b = 2
  is_insufficient_material := fun b => b = 3
  is_capture := fun _ _ => false
  gives_check := fun _ _ => false
  pieces := fun b t c =>
    match b, t, c with
    | 4, .pawn, true => 2
    | 4, .knight, false => 1
    | _, _, _ => 0
  piece_at := fun b s =>
    if b = 4 && s = 5 then some (true, .pawn)
    else if b = 4 && s = 59 then some (false, .knight)
    else none
  king := fun b c =>
    if b = 4 then (if c then some 4 else some 60) else none

/-- A concrete game for the easy policy: board `0` has three moves, of
which move `0` is a capture and move `2` gives check. -/
@[reducible] def gEasy : Game where
  B := Nat
  M := Nat
  legal_moves := fun b => if b = 0 then [0, 1, 2] else []
  push := fun _ _ => 0
  turn := fun _ => true
  is_game_over := fun b => decide (b ≠ 0)
  is_checkmate := fun _ => false
  is_stalemate := fun _ => false
  is_insufficient_material := fun _ => false
  is_capture := fun b m => b = 0 && m = 0
  gives_check := fun b m => b = 0 && m = 2
  pieces := fun _ _ _ => 0
  piece_at := fun _ _ => none
  king := fun _ _ => none

/-- The medium-difficulty configuration (as set by `set_difficulty`). -/
def aiMedium : ChessAI := ⟨"medium", 2, true, true⟩

/-- Fail-soft relation between the value returned by an alpha-beta search
with bounds `a < b` and the true (full minimax) value `v`: a fail-low
result upper-bounds `v`, a fail-high result lower-bounds `v`, and an
in-window result is exact. -/
def failSoft (a b r v : EInt) : Prop :=
  (r ≤ a → v ≤ r) ∧ (b ≤ r → r ≤ v) ∧ (a < r → r < b → r = v)

theorem failSoft_refl (a b x : EInt) : failSoft a b x x :=
  ⟨fun _ => le_refl x, fun _ => le_refl x, fun _ _ => rfl⟩

theorem le_foldl_max : ∀ (l : List EInt) (x : EInt), x ≤ l.foldl max x := by
  intro l
  induction l with
  | nil => intro x; exact le_refl x
  | cons a t ih => intro x; exact le_trans (le_max_left x a) (ih (max x a))

theorem foldl_min_le : ∀ (l : List EInt) (x : EInt), l.foldl min x ≤ x := by
  intro l
  induction l with
  | nil => intro x; exact le_refl x
  | cons a t ih => intro x; exact le_trans (ih (min x a)) (min_le_left x a)

theorem maxLoopS_eq (g : Game) (fS : BState g → EInt → EInt → EInt × BState g)
    (f : g.B → EInt → EInt → EInt)
    (hf : ∀ bs a bb, fS bs a bb = (f bs.cur a bb, bs)) :
    ∀ (ms : List g.M) (bs : BState g) (value alpha beta : EInt),
      maxLoopS g fS ms bs value alpha beta =
        (abMaxLoop g f bs.cur ms value alpha beta, bs) := by
  intro ms
  induction ms with
  | nil => intro bs value alpha beta; rfl
  | cons m t ih =>
    intro bs value alpha beta
    simp only [maxLoopS, abMaxLoop, hf, pushB, popB]
    split
    · rfl
    · exact ih _ _ _ _

theorem minLoopS_eq (g : Game) (fS : BState g → EInt → EInt → EInt × BState g)
    (f : g.B → EInt → EInt → EInt)
    (hf : ∀ bs a bb, fS bs a bb = (f bs.cur a bb, bs)) :
    ∀ (ms : List g.M) (bs : BState g) (value alpha beta : EInt),
      minLoopS g fS ms bs value alpha beta =
        (abMinLoop g f bs.cur ms value alpha beta, bs) := by
  intro ms
  induction ms with
  | nil => intro bs value alpha beta; rfl
  | cons m t ih =>
    intro bs value alpha beta
    simp only [minLoopS, abMinLoop, hf, pushB, popB]
    split
    · rfl
    · exact ih _ _ _ _

theorem minimaxS_eq (g : Game) (ev : g.B → ℤ) :
    ∀ (d : Nat) (bs : BState g) (alpha beta : EInt) (mx : Bool),
      minimaxS g ev d bs alpha beta mx = (abMinimax g ev d bs.cur alpha beta mx, bs) := by
  intro d
  induction d with
  | zero => intro bs alpha beta mx; rfl
  | succ n ih =>
    intro bs alpha beta mx
    simp only [minimaxS, abMinimax]
    split
    · rfl
    · cases mx
      · simp only [Bool.false_eq_true, if_false]
        exact minLoopS_eq g _ _ (fun bs1 a bb => ih bs1 a bb true) _ _ _ _ _
      · simp only [if_true]
        exact maxLoopS_eq g _ _ (fun bs1 a bb => ih bs1 a bb false) _ _ _ _ _

theorem rootMoveLoop_state (g : Game) (ev : g.B → ℤ) (d : Nat) :
    ∀ (ms : List g.M) (bs : BState g) (cur : Option g.M × EInt) (alpha beta : EInt),
      (rootMoveLoop g ev d ms bs cur alpha beta).2.2 = bs := by
  intro ms
  induction ms with
  | nil => intro bs cur alpha beta; rfl
  | cons m t ih =>
    intro bs cur alpha beta
    simp only [rootMoveLoop, minimaxS_eq, pushB, popB]
    exact ih _ _ _ _

theorem idLoop_state (g : Game) (ev : g.B → ℤ) (moves : List g.M) :
    ∀ (ds : List Nat) (bs : BState g) (best : Option g.M × EInt) (alpha beta : EInt),
      (idLoop g ev moves ds bs best alpha beta).2.2 = bs := by
  intro ds
  induction ds with
  | nil => intro bs best alpha beta; rfl
  | cons dpt t ih =>
    intro bs best alpha beta
    simp only [idLoop]
    rw [ih, rootMoveLoop_state]

theorem get_best_move_state (g : Game) (ai : ChessAI) (bs : BState g) (r : RandSrc) :
    (get_best_move g ai bs r).2.1 = bs := by
  simp only [get_best_move]
  split
  · rfl
  · split
    · rfl
    · rcases hq : (idLoop g (evaluate_position_core g ai.use_positional)
        (shuffle (g.legal_moves bs.cur) r).1 (List.range' 1 ai.search_depth)
        bs (none, ⊥) ⊥ ⊤).1.1 with _ | m
      · simp only [hq, idLoop_state]
      · simp only [hq, idLoop_state]

theorem get_cons_eraseIdx_perm :
    ∀ {α : Type} (xs : List α) (i : Nat) (h : i < xs.length),
      List.Perm (xs.get ⟨i, h⟩ :: xs.eraseIdx i) xs := by
  intro α xs
  induction xs with
  | nil => intro i h; exact absurd h (by simp)
  | cons x t ih =>
    intro i h
    cases i with
    | zero => simp [List.eraseIdx]
    | succ j =>
      have hj : j < t.length := by simpa using h
      simp only [List.get_cons_succ, List.eraseIdx_cons_succ]
      exact (List.Perm.swap x _ _).trans (List.Perm.cons x (ih j hj))

theorem shuffleGo_perm :
    ∀ {α : Type} (fuel : Nat) (r : RandSrc) (xs : List α), xs.length ≤ fuel →
      List.Perm (shuffleGo fuel r xs).1 xs := by
  intro α fuel
  induction fuel with
  | zero =>
    intro r xs h
    have hx : xs = [] := List.length_eq_zero.mp (Nat.le_zero.mp h)
    subst hx
    exact List.Perm.refl _
  | succ n ih =>
    intro r xs h
    cases xs with
    | nil => exact List.Perm.refl _
    | cons x t =>
      simp only [shuffleGo]
      refine List.Perm.trans (List.Perm.cons _ (ih _ _ ?_)) (get_cons_eraseIdx_perm _ _ _)
      have hlen : ((x :: t).eraseIdx (r.picks.headD 0 % (x :: t).length)).length =
          (x :: t).length - 1 := by
        apply List.length_eraseIdx_of_lt
        exact Nat.mod_lt _ (Nat.succ_pos _)
      rw [hlen]
      simp only [List.length_cons] at h ⊢
      omega

theorem shuffle_perm {α : Type} (xs : List α) (r : RandSrc) :
    List.Perm (shuffle xs r).1 xs :=
  shuffleGo_perm xs.length r xs (le_refl _)

theorem randChoice_mem {α : Type} (xs : List α) (r : RandSrc) (h : xs ≠ []) :
    ∃ a, (randChoice xs r).1 = some a ∧ a ∈ xs := by
  have hlen : 0 < xs.length := List.length_pos.mpr h
  have hi : r.picks.headD 0 % xs.length < xs.length := Nat.mod_lt _ hlen
  refine ⟨xs.get ⟨_, hi⟩, ?_, List.get_mem _ _ _⟩
  simp only [randChoice]
  exact List.get?_eq_get hi

theorem easy_check_phase_mem (g : Game) (b : g.B) (legal : List g.M) (r : RandSrc)
    (h : legal ≠ []) :
    ∃ m, (easy_check_phase g b legal r).1 = some m ∧ m ∈ legal := by
  simp only [easy_check_phase]
  split
  next hne =>
    have hne' : legal.filter (fun m => g.gives_check b m) ≠ [] := by simpa using hne
    split
    · rcases randChoice_mem _ _ hne' with ⟨m, hm, hmem⟩
      exact ⟨m, hm, List.mem_of_mem_filter hmem⟩
    · exact randChoice_mem legal _ h
  next _ => exact randChoice_mem legal _ h

theorem get_easy_move_mem (g : Game) (b : g.B) (legal : List g.M) (r : RandSrc)
    (h : legal ≠ []) :
    ∃ m, (get_easy_move g b legal r).1 = some m ∧ m ∈ legal := by
  simp only [get_easy_move]
  split
  · exact randChoice_mem legal _ h
  · split
    next hne =>
      have hne' : legal.filter (fun m => g.is_capture b m) ≠ [] := by simpa using hne
      split
      · rcases randChoice_mem _ _ hne' with ⟨m, hm, hmem⟩
        exact ⟨m, hm, List.mem_of_mem_filter hmem⟩
      · exact easy_check_phase_mem g b legal _ h
    next _ => exact easy_check_phase_mem g b legal _ h

theorem rootMoveLoop_mem (g : Game) (ev : g.B → ℤ) (d : Nat) :
    ∀ (ms : List g.M) (bs : BState g) (cur : Option g.M × EInt) (alpha beta : EInt)
      (m' : g.M),
      (rootMoveLoop g ev d ms bs cur alpha beta).1.1 = some m' →
        cur.1 = some m' ∨ m' ∈ ms := by
  intro ms
  induction ms with
  | nil =>
    intro bs cur alpha beta m' hres
    exact Or.inl hres
  | cons m t ih =>
    intro bs cur alpha beta m' hres
    simp only [rootMoveLoop] at hres
    rcases ih _ _ _ _ _ hres with hc | hmem
    · by_cases hlt : cur.2 < (minimaxS g ev d (pushB g bs m) alpha beta false).1
      · rw [if_pos hlt] at hc
        simp only at hc
        exact Or.inr (by rw [← Option.some_inj.mp hc] at *; exact List.mem_cons_self m t)
      · rw [if_neg hlt] at hc
        exact Or.inl hc
    · exact Or.inr (List.mem_cons_of_mem m hmem)

theorem idLoop_mem (g : Game) (ev : g.B → ℤ) (moves : List g.M) :
    ∀ (ds : List Nat) (bs : BState g) (best : Option g.M × EInt) (alpha beta : EInt)
      (m' : g.M),
      (idLoop g ev moves ds bs best alpha beta).1.1 = some m' →
        best.1 = some m' ∨ m' ∈ moves := by
  intro ds
  induction ds with
  | nil =>
    intro bs best alpha beta m' hres
    exact Or.inl hres
  | cons dpt t ih =>
    intro bs best alpha beta m' hres
    simp only [idLoop] at hres
    rcases hq : (rootMoveLoop g ev (dpt - 1) moves bs (none, ⊥) alpha beta).1.1 with _ | mm
    · rw [hq] at hres
      simp only at hres
      rcases ih _ _ _ _ _ hres with hb | hm
      · exact Or.inl hb
      · exact Or.inr hm
    · rw [hq] at hres
      simp only at hres
      rcases ih _ _ _ _ _ hres with hb | hm
      · rcases rootMoveLoop_mem g ev (dpt - 1) moves bs (none, ⊥) alpha beta m'
          hb with hnone | hmem
        · exact absurd hnone (by simp)
        · exact Or.inr hmem
      · exact Or.inr hm

theorem idLoop_eq_foldl (g : Game) (ev : g.B → ℤ) (moves : List g.M) :
    ∀ (ds : List Nat) (bs : BState g) (best : Option g.M × EInt) (alpha : EInt),
      idLoop g ev moves ds bs best alpha ⊤ =
        ds.foldl (depthStep g ev moves) (best, alpha, bs) := by
  intro ds
  induction ds with
  | nil => intro bs best alpha; rfl
  | cons dpt t ih =>
    intro bs best alpha
    simp only [idLoop, List.foldl_cons]
    rw [ih]
    rfl

theorem abMaxLoop_failSoft (g : Game) (f : g.B → EInt → EInt → EInt) (fv : g.B → EInt)
    (a0 b0 : EInt)
    (hf : ∀ (c : g.B) (a : EInt), a < b0 → failSoft a b0 (f c a b0) (fv c)) :
    ∀ (ms : List g.M) (b : g.B) (u w : EInt),
      max a0 u < b0 →
      (u ≤ a0 → w ≤ u) → (b0 ≤ u → u ≤ w) → (a0 < u → u < b0 → u = w) →
      failSoft a0 b0 (abMaxLoop g f b ms u (max a0 u) b0)
        (List.foldl max w (ms.map (fun m => fv (g.push b m)))) := by
  intro ms
  induction ms with
  | nil =>
    intro b u w _ h1 h2 h3
    exact ⟨h1, h2, h3⟩
  | cons m t ih =>
    intro b u w hlt h1 h2 h3
    have hfm := hf (g.push b m) (max a0 u) hlt
    simp only [abMaxLoop, List.map_cons, List.foldl_cons]
    set v := f (g.push b m) (max a0 u) b0 with hv
    set fvc := fv (g.push b m) with hfvc
    have halpha : max (max a0 u) (max u v) = max a0 (max u v) := by
      rw [max_assoc, ← max_assoc u u v, max_self]
    have h1' : max u v ≤ a0 → max w fvc ≤ max u v := by
      intro hle
      have hva : v ≤ max a0 u :=
        le_trans (le_max_right u v) (le_trans hle (le_max_left a0 u))
      exact max_le (le_trans (h1 (le_trans (le_max_left u v) hle)) (le_max_left u v))
        (le_trans (hfm.1 hva) (le_max_right u v))
    have h2' : b0 ≤ max u v → max u v ≤ max w fvc := by
      intro hge
      rcases le_total v u with hvu | huv
      · rw [max_eq_left hvu] at hge ⊢
        exact le_trans (h2 hge) (le_max_left w fvc)
      · rw [max_eq_right huv] at hge ⊢
        exact le_trans (hfm.2.1 hge) (le_max_right w fvc)
    have h3' : a0 < max u v → max u v < b0 → max u v = max w fvc := by
      intro hgt hltb
      apply le_antisymm
      · rcases le_total v u with hvu | huv
        · rw [max_eq_left hvu] at hgt hltb ⊢
          exact le_trans (le_of_eq (h3 hgt hltb)) (le_max_left w fvc)
        · rw [max_eq_right huv] at hgt hltb ⊢
          rcases le_or_lt v (max a0 u) with hva | hva
          · have hvu2 : v ≤ u := by
              rcases max_cases a0 u with ⟨hm, _⟩ | ⟨hm, _⟩
              · rw [hm] at hva
                exact absurd (lt_of_lt_of_le hgt hva) (lt_irrefl a0)
              · rw [hm] at hva
                exact hva
            have huv2 : u = v := le_antisymm huv hvu2
            rw [← huv2] at hgt hltb ⊢
            exact le_trans (le_of_eq (h3 hgt hltb)) (le_max_left w fvc)
          · rw [hfm.2.2 hva hltb]
            exact le_max_right w fvc
      · apply max_le
        · rcases le_or_lt u a0 with hua | hau
          · exact le_trans (h1 hua) (le_max_left u v)
          · have hub : u < b0 := lt_of_le_of_lt (le_max_left u v) hltb
            exact le_trans (le_of_eq (h3 hau hub).symm) (le_max_left u v)
        · have hvb : v < b0 := lt_of_le_of_lt (le_max_right u v) hltb
          rcases le_or_lt v (max a0 u) with hva | hva
          · exact le_trans (hfm.1 hva) (le_max_right u v)
          · exact le_trans (le_of_eq (hfm.2.2 hva hvb).symm) (le_max_right u v)
    have ha0b : a0 < b0 := lt_of_le_of_lt (le_max_left a0 u) hlt
    split
    next hcut =>
      rw [halpha] at hcut
      have hbu' : b0 ≤ max u v := by
        rcases max_cases a0 (max u v) with ⟨hm, _⟩ | ⟨hm, _⟩
        · rw [hm] at hcut
          exact absurd (lt_of_lt_of_le ha0b hcut) (lt_irrefl a0)
        · rw [hm] at hcut
          exact hcut
      exact ⟨fun hle => absurd (lt_of_lt_of_le ha0b (le_trans hbu' hle)) (lt_irrefl a0),
             fun _ => le_trans (h2' hbu') (le_foldl_max _ _),
             fun _ hltb => absurd (lt_of_le_of_lt hbu' hltb) (lt_irrefl b0)⟩
    next hcut =>
      rw [halpha] at hcut ⊢
      exact ih b (max u v) (max w fvc) (lt_of_not_le hcut) h1' h2' h3'

theorem abMinLoop_failSoft (g : Game) (f : g.B → EInt → EInt → EInt) (fv : g.B → EInt)
    (a0 b0 : EInt)
    (hf : ∀ (c : g.B) (bb : EInt), a0 < bb → failSoft a0 bb (f c a0 bb) (fv c)) :
    ∀ (ms : List g.M) (b : g.B) (u w : EInt),
      a0 < min b0 u →
      (u ≤ a0 → w ≤ u) → (b0 ≤ u → u ≤ w) → (a0 < u → u < b0 → u = w) →
      failSoft a0 b0 (abMinLoop g f b ms u a0 (min b0 u))
        (List.foldl min w (ms.map (fun m => fv (g.push b m)))) := by
  intro ms
  induction ms with
  | nil =>
    intro b u w _ h1 h2 h3
    exact ⟨h1, h2, h3⟩
  | cons m t ih =>
    intro b u w hlt h1 h2 h3
    have hfm := hf (g.push b m) (min b0 u) hlt
    simp only [abMinLoop, List.map_cons, List.foldl_cons]
    set v := f (g.push b m) a0 (min b0 u) with hv
    set fvc := fv (g.push b m) with hfvc
    have hbeta : min (min b0 u) (min u v) = min b0 (min u v) := by
      rw [min_assoc, ← min_assoc u u v, min_self]
    have h1' : min u v ≤ a0 → min w fvc ≤ min u v := by
      intro hle
      rcases le_total u v with huv | hvu
      · rw [min_eq_left huv] at hle ⊢
        exact le_trans (min_le_left w fvc) (h1 hle)
      · rw [min_eq_right hvu] at hle ⊢
        exact le_trans (min_le_right w fvc) (hfm.1 hle)
    have h2' : b0 ≤ min u v → min u v ≤ min w fvc := by
      intro hge
      have hub : b0 ≤ u := le_trans hge (min_le_left u v)
      have hvb : b0 ≤ v := le_trans hge (min_le_right u v)
      have hbv : min b0 u ≤ v := le_trans (min_le_left b0 u) hvb
      exact le_min (le_trans (min_le_left u v) (h2 hub))
        (le_trans (min_le_right u v) (hfm.2.1 hbv))
    have h3' : a0 < min u v → min u v < b0 → min u v = min w fvc := by
      intro hgt hltb
      apply le_antisymm
      · apply le_min
        · rcases le_or_lt b0 u with hbu | hub
          · exact le_trans (min_le_left u v) (h2 hbu)
          · have hau : a0 < u := lt_of_lt_of_le hgt (min_le_left u v)
            exact le_trans (min_le_left u v) (le_of_eq (h3 hau hub))
        · have hav : a0 < v := lt_of_lt_of_le hgt (min_le_right u v)
          rcases le_or_lt (min b0 u) v with hbv | hvb
          · exact le_trans (min_le_right u v) (hfm.2.1 hbv)
          · exact le_trans (min_le_right u v) (le_of_eq (hfm.2.2 hav hvb))
      · rcases le_total u v with huv | hvu
        · rw [min_eq_left huv] at hgt hltb ⊢
          exact le_trans (min_le_left w fvc) (le_of_eq (h3 hgt hltb).symm)
        · rw [min_eq_right hvu] at hgt hltb ⊢
          rcases le_or_lt (min b0 u) v with hbv | hvb
          · have huv2 : u ≤ v := by
              rcases min_cases b0 u with ⟨hm, _⟩ | ⟨hm, _⟩
              · rw [hm] at hbv
                exact absurd (lt_of_le_of_lt hbv hltb) (lt_irrefl b0)
              · rw [hm] at hbv
                exact hbv
            have hueq : v = u := le_antisymm hvu huv2
            rw [hueq] at hgt hltb ⊢
            exact le_trans (min_le_left w fvc) (le_of_eq (h3 hgt hltb).symm)
          · exact le_trans (min_le_right w fvc) (le_of_eq (hfm.2.2 hgt hvb).symm)
    have hab : a0 < b0 := lt_of_lt_of_le hlt (min_le_left b0 u)
    split
    next hcut =>
      rw [hbeta] at hcut
      have hua : min u v ≤ a0 := by
        rcases min_cases b0 (min u v) with ⟨hm, _⟩ | ⟨hm, _⟩
        · rw [hm] at hcut
          exact absurd (lt_of_lt_of_le hab hcut) (lt_irrefl a0)
        · rw [hm] at hcut
          exact hcut
      exact ⟨fun _ => le_trans (foldl_min_le _ _) (h1' hua),
             fun hge => absurd (lt_of_le_of_lt (le_trans hge hua) hab) (lt_irrefl b0),
             fun hgt _ => absurd (lt_of_lt_of_le hgt hua) (lt_irrefl a0)⟩
    next hcut =>
      rw [hbeta] at hcut ⊢
      exact ih b (min u v) (min w fvc) (lt_of_not_le hcut) h1' h2' h3'

theorem abMinimax_failSoft (g : Game) (ev : g.B → ℤ) :
    ∀ (d : Nat) (b : g.B) (a0 b0 : EInt) (mx : Bool), a0 < b0 →
      failSoft a0 b0 (abMinimax g ev d b a0 b0 mx) (fullMinimax g ev d b mx) := by
  intro d
  induction d with
  | zero => intro b a0 b0 mx _; exact failSoft_refl _ _ _
  | succ n ih =>
    intro b a0 b0 mx hab
    simp only [abMinimax, fullMinimax]
    split
    · exact failSoft_refl _ _ _
    · cases mx
      · simp only [Bool.false_eq_true, if_false]
        have h := abMinLoop_failSoft g
          (fun c a bb => abMinimax g ev n c a bb true)
          (fun c => fullMinimax g ev n c true) a0 b0
          (fun c bb hltb => ih c a0 bb true hltb)
          (g.legal_moves b) b ⊤ ⊤
          (by rw [min_eq_left le_top]; exact hab)
          (fun _ => le_refl _) (fun _ => le_refl _) (fun _ _ => rfl)
        rw [min_eq_left le_top] at h
        exact h
      · simp only [if_true]
        have h := abMaxLoop_failSoft g
          (fun c a bb => abMinimax g ev n c a bb false)
          (fun c => fullMinimax g ev n c false) a0 b0
          (fun c a hlta => ih c a b0 false hlta)
          (g.legal_moves b) b ⊥ ⊥
          (by rw [max_eq_left bot_le]; exact hab)
          (fun _ => le_refl _) (fun _ => le_refl _) (fun _ _ => rfl)
        rw [max_eq_left bot_le] at h
        exact h

/-- C2: for every position and every depth, alpha-beta minimax called with
initial bounds `alpha = -inf`, `beta = +inf` returns the same value as an
unpruned full minimax search of the same position at the same depth,
whether maximizing or minimizing; this holds for every rules engine and
every evaluation function, so in particular for `ChessAI._minimax` with
`ChessAI._evaluate_position`. -/
theorem alphabeta_equals_full_minimax (g : Game) (ev : g.B → ℤ) (d : Nat)
    (bs : BState g) (mx : Bool) :
    (minimaxS g ev d bs ⊥ ⊤ mx).1 = fullMinimax g ev d bs.cur mx := by
  rw [minimaxS_eq]
  show abMinimax g ev d bs.cur ⊥ ⊤ mx = fullMinimax g ev d bs.cur mx
  have h := abMinimax_failSoft g ev d bs.cur ⊥ ⊤ mx bot_lt_top
  by_cases hb : abMinimax g ev d bs.cur ⊥ ⊤ mx = ⊥
  · exact le_antisymm (by rw [hb]; exact bot_le) (h.1 (le_of_eq hb))
  · by_cases ht : abMinimax g ev d bs.cur ⊥ ⊤ mx = ⊤
    · exact le_antisymm (h.2.1 (le_of_eq ht.symm)) (by rw [ht]; exact le_top)
    · exact h.2.2 (bot_lt_iff_ne_bot.mpr hb) (lt_top_iff_ne_top.mpr ht)

/-- C9: every push performed by `get_best_move` and by the minimax
recursion is matched by exactly one pop before the enclosing function
returns (including on every cutoff path), so the board state observable
after either call is identical to the board state at entry. -/
theorem search_restores_board (g : Game) (ev : g.B → ℤ) (d : Nat) (bs : BState g)
    (alpha beta : EInt) (mx : Bool) (ai : ChessAI) (r : RandSrc) :
    (minimaxS g ev d bs alpha beta mx).2 = bs ∧
      (get_best_move g ai bs r).2.1 = bs :=
  ⟨by rw [minimaxS_eq], get_best_move_state g ai bs r⟩

/-- C10: the move returned by `get_best_move` is independent of the
`use_opening_book` flag: for the same position and the same random
source, changing only that flag cannot change the result (the flag is
written by `set_difficulty` but never read by move selection or
evaluation). -/
theorem opening_book_flag_unused (g : Game) (ai : ChessAI) (bs : BState g)
    (r : RandSrc) (v : Bool) :
    get_best_move g ⟨ai.difficulty, ai.search_depth, v, ai.use_positional⟩ bs r =
      get_best_move g ai bs r := by
  obtain ⟨dif, sd, ob, up⟩ := ai
  rfl

/-- C8: `set_difficulty` never fails; it lowercases its argument, maps
anything outside the three known names to medium, and replaces the whole
configuration as one unit with the fixed per-tier mapping (easy: depth 1,
positional off; medium: depth 2, positional on; hard: depth 3, positional
on). -/
theorem set_difficulty_total_mapping (ai : ChessAI) (s : String) :
    set_difficulty ai s =
      if s.toLower = "easy" then ⟨"easy", 1, false, false⟩
      else if s.toLower = "medium" then ⟨"medium", 2, true, true⟩
      else if s.toLower = "hard" then ⟨"hard", 3, true, true⟩
      else ⟨"medium", 2, true, true⟩ := by
  simp only [set_difficulty]
  by_cases h1 : s.toLower = "easy"
  · rw [h1]
    decide
  · by_cases h2 : s.toLower = "medium"
    · rw [h2]
      decide
    · by_cases h3 : s.toLower = "hard"
      · rw [h3]
        decide
      · have hmem : s.toLower ∉ (["easy", "medium", "hard"] : List String) := by
          simp [h1, h2, h3]
        rw [if_neg hmem, if_neg h1, if_neg h2, if_neg h3]
        decide

/-- C7: on a position with zero legal moves `get_best_move` returns the
`None` sentinel immediately, for every difficulty configuration, with the
board state and the random source untouched (no minimax recursion, no
evaluator call, no random draw happens). -/
theorem no_legal_moves_returns_none (g : Game) (ai : ChessAI) (bs : BState g)
    (r : RandSrc) (h : g.legal_moves bs.cur = []) :
    get_best_move g ai bs r = (none, bs, r) := by
  simp only [get_best_move, h]
  rfl

/-- Witness for C7 at a concrete stuck position of the example game. -/
theorem no_legal_moves_returns_none_witness :
    gEx.legal_moves 3 = [] ∧
      get_best_move gEx aiMedium ⟨3, []⟩ ⟨[], []⟩ = (none, ⟨3, []⟩, ⟨[], []⟩) :=
  ⟨rfl, no_legal_moves_returns_none gEx aiMedium ⟨3, []⟩ ⟨[], []⟩ rfl⟩

/-- C3: a checkmate position evaluates to exactly `-10000` when it is
White's turn and exactly `10000` when it is Black's turn; a stalemate or
insufficient-material position that is not checkmate evaluates to exactly
`0`; both regardless of the positional-enabled flag (the `ai`
configuration is arbitrary). -/
theorem evaluate_terminal_positions (g : Game) (ai : ChessAI) (b : g.B) :
    (g.is_checkmate b = true →
      ai.evaluatePosition g b = if g.turn b then -10000 else 10000) ∧
    (g.is_checkmate b = false →
      (g.is_stalemate b = true ∨ g.is_insufficient_material b = true) →
      ai.evaluatePosition g b = 0) := by
  constructor
  · intro hc
    simp [ChessAI.evaluatePosition, evaluate_position_core, hc]
  · intro hc hd
    rcases hd with hs | hi
    · simp [ChessAI.evaluatePosition, evaluate_position_core, hc, hs]
    · simp [ChessAI.evaluatePosition, evaluate_position_core, hc, hi]

/-- Witness for C3 on concrete checkmate/stalemate boards. -/
theorem evaluate_terminal_positions_witness :
    gEval.is_checkmate 0 = true ∧ gEval.turn 0 = true ∧
    gEval.is_checkmate 1 = true ∧ gEval.turn 1 = false ∧
    gEval.is_checkmate 2 = false ∧ gEval.is_stalemate 2 = true ∧
    aiMedium.evaluatePosition gEval 0 = -10000 ∧
    aiMedium.evaluatePosition gEval 1 = 10000 ∧
    aiMedium.evaluatePosition gEval 2 = 0 :=
  ⟨rfl, rfl, rfl, rfl, rfl, rfl,
    ((evaluate_terminal_positions gEval aiMedium 0).1 rfl).trans rfl,
    ((evaluate_terminal_positions gEval aiMedium 1).1 rfl).trans rfl,
    (evaluate_terminal_positions gEval aiMedium 2).2 rfl (Or.inl rfl)⟩

/-- C4: on a position that is neither checkmate nor stalemate nor
insufficient material, the evaluation equals
`s * (material + positional + mobility + kingSafety)` with `s = 1` for
White to move and `s = -1` for Black to move, where positional is
included only when the positional flag is set, mobility is five times the
mover's legal-move count signed by the side to move, and king safety is
ten times White's king-zone defenders minus ten times Black's (when both
kings are on the board). -/
theorem evaluate_nonterminal_formula (g : Game) (ai : ChessAI) (b : g.B)
    (hc : g.is_checkmate b = false) (hs : g.is_stalemate b = false)
    (hi : g.is_insufficient_material b = false) :
    ai.evaluatePosition g b =
      (if g.turn b then 1 else -1) *
        (evaluate_material g b +
          (if ai.use_positional then evaluate_position_score g b else 0) +
          (if g.turn b then ((g.legal_moves b).length : ℤ) * 5
           else -(((g.legal_moves b).length : ℤ) * 5)) +
          evaluate_king_safety g b) ∧
    (∀ wk bk, g.king b true = some wk → g.king b false = some bk →
      evaluate_king_safety g b =
        10 * (((king_zone wk).filter (fun s =>
          match g.piece_at b s with
          | some pc => pc.1
          | none => false)).length : ℤ) -
        10 * (((king_zone bk).filter (fun s =>
          match g.piece_at b s with
          | some pc => !pc.1
          | none => false)).length : ℤ)) := by
  constructor
  · simp only [ChessAI.evaluatePosition, evaluate_position_core, hc, hs, hi]
    by_cases ht : g.turn b
    · simp [ht]
    · simp only [ht]
      simp
  · intro wk bk hwk hbk
    simp only [evaluate_king_safety, hwk, hbk]
    ring

/-- Witness for C4 on a concrete quiet board of the evaluation game. -/
theorem evaluate_nonterminal_formula_witness :
    gEval.is_checkmate 4 = false ∧ gEval.is_stalemate 4 = false ∧
    gEval.is_insufficient_material 4 = false ∧
    gEval.king 4 true = some 4 ∧ gEval.king 4 false = some 60 ∧
    aiMedium.evaluatePosition gEval 4 = -85 ∧
    evaluate_king_safety gEval 4 = 10 * 1 - 10 * 1 := by
  have h := evaluate_nonterminal_formula gEval aiMedium 4 rfl rfl rfl
  refine ⟨rfl, rfl, rfl, rfl, rfl, ?_, ?_⟩
  · rw [h.1]
    decide
  · rw [h.2 4 60 rfl rfl]
    decide

/-- C1 counterexample: the claim that every depth iteration of the
iterative-deepening loop begins with fresh `alpha = -inf`, `beta = +inf`
is false for the code: on the concrete game `gEx` the engine (which
carries alpha over from the depth-1 iteration into the depth-2 root
search) returns move `1`, while the fresh-bounds search described by the
spec returns move `0`. -/
theorem iterative_deepening_fresh_alpha_refuted :
    (get_best_move gEx aiMedium ⟨0, []⟩ ⟨[], []⟩).1 = some 1 ∧
    (get_best_move_fresh gEx aiMedium ⟨0, []⟩ ⟨[], []⟩).1 = some 0 ∧
    (get_best_move gEx aiMedium ⟨0, []⟩ ⟨[], []⟩).1 ≠
      (get_best_move_fresh gEx aiMedium ⟨0, []⟩ ⟨[], []⟩).1 := by
  refine ⟨?_, ?_, ?_⟩ <;> decide

/-- C1 (amended): each depth iteration of the iterative-deepening loop
reuses the same shuffled root move ordering and starts with
`beta = +inf`, but `alpha` is initialized once before the loop and the
alpha accumulated during one depth's root search is carried into the next
depth's root search (`get_best_move_carry` makes this alpha threading
explicit as a fold of `depthStep`). -/
theorem iterative_deepening_alpha_carried (g : Game) (ai : ChessAI)
    (bs : BState g) (r : RandSrc) :
    get_best_move g ai bs r = get_best_move_carry g ai bs r := by
  simp only [get_best_move, get_best_move_carry, idLoop_eq_foldl]

/-- C6: on a position with at least one legal move, `get_best_move`
returns `some` member of the legal-move list at every difficulty
configuration, never the `None` sentinel; when the search loop records no
best move the fallback random choice still yields a legal move. -/
theorem best_move_always_legal (g : Game) (ai : ChessAI) (bs : BState g)
    (r : RandSrc) (h : g.legal_moves bs.cur ≠ []) :
    ∃ m, (get_best_move g ai bs r).1 = some m ∧ m ∈ g.legal_moves bs.cur := by
  have hne : ¬ (g.legal_moves bs.cur).isEmpty = true := by simpa using h
  simp only [get_best_move]
  rw [if_neg hne]
  by_cases hd : ai.difficulty = "easy"
  · rw [if_pos hd]
    rcases get_easy_move_mem g bs.cur (g.legal_moves bs.cur) r h with ⟨m, hm, hmem⟩
    exact ⟨m, hm, hmem⟩
  · rw [if_neg hd]
    have hperm := shuffle_perm (g.legal_moves bs.cur) r
    rcases hq : (idLoop g (evaluate_position_core g ai.use_positional)
        (shuffle (g.legal_moves bs.cur) r).1 (List.range' 1 ai.search_depth)
        bs (none, ⊥) ⊥ ⊤).1.1 with _ | m
    · simp only [hq]
      have hne2 : (shuffle (g.legal_moves bs.cur) r).1 ≠ [] := by
        intro hnil
        rw [hnil] at hperm
        exact h (List.nil_perm.mp hperm)
      rcases randChoice_mem _ (shuffle (g.legal_moves bs.cur) r).2 hne2 with ⟨m, hm, hmem⟩
      exact ⟨m, hm, hperm.subset hmem⟩
    · simp only [hq]
      refine ⟨m, rfl, ?_⟩
      rcases idLoop_mem g _ _ _ _ _ _ _ _ hq with hb | hmem
      · exact absurd hb (by simp)
      · exact hperm.subset hmem

/-- Witness for C6 on the concrete root position of the example game. -/
theorem best_move_always_legal_witness :
    gEx.legal_moves 0 ≠ [] ∧
      ∃ m, (get_best_move gEx aiMedium ⟨0, []⟩ ⟨[], []⟩).1 = some m ∧
        m ∈ gEx.legal_moves 0 :=
  ⟨by decide, best_move_always_legal gEx aiMedium ⟨0, []⟩ ⟨[], []⟩ (by decide)⟩

/-- C5: the easy policy is a sequence of independent random gates: a draw
below 0.10 yields a uniformly random legal move; otherwise, if captures
exist, a draw below 0.80 yields a random capture, and on a failed roll
the engine falls through to the check gate rather than to fully random:
if checking moves exist, a draw below 0.70 yields a random check, else a
random legal move.  The eight conjuncts characterize every branch of
`get_easy_move`, including which random draws are consumed. -/
theorem easy_move_gate_sequence (g : Game) (b : g.B) (legal : List g.M)
    (r : RandSrc) :
    (r.floats.headD 0 < 1/10 →
      get_easy_move g b legal r = randChoice legal ⟨r.floats.tail, r.picks⟩) ∧
    (¬ r.floats.headD 0 < 1/10 → legal.filter (fun m => g.is_capture b m) ≠ [] →
      r.floats.tail.headD 0 < 8/10 →
      get_easy_move g b legal r =
        randChoice (legal.filter (fun m => g.is_capture b m))
          ⟨r.floats.tail.tail, r.picks⟩) ∧
    (¬ r.floats.headD 0 < 1/10 → legal.filter (fun m => g.is_capture b m) ≠ [] →
      ¬ r.floats.tail.headD 0 < 8/10 →
      legal.filter (fun m => g.gives_check b m) ≠ [] →
      r.floats.tail.tail.headD 0 < 7/10 →
      get_easy_move g b legal r =
        randChoice (legal.filter (fun m => g.gives_check b m))
          ⟨r.floats.tail.tail.tail, r.picks⟩) ∧
    (¬ r.floats.headD 0 < 1/10 → legal.filter (fun m => g.is_capture b m) ≠ [] →
      ¬ r.floats.tail.headD 0 < 8/10 →
      legal.filter (fun m => g.gives_check b m) ≠ [] →
      ¬ r.floats.tail.tail.headD 0 < 7/10 →
      get_easy_move g b legal r =
        randChoice legal ⟨r.floats.tail.tail.tail, r.picks⟩) ∧
    (¬ r.floats.headD 0 < 1/10 → legal.filter (fun m => g.is_capture b m) ≠ [] →
      ¬ r.floats.tail.headD 0 < 8/10 →
      legal.filter (fun m => g.gives_check b m) = [] →
      get_easy_move g b legal r = randChoice legal ⟨r.floats.tail.tail, r.picks⟩) ∧
    (¬ r.floats.headD 0 < 1/10 → legal.filter (fun m => g.is_capture b m) = [] →
      legal.filter (fun m => g.gives_check b m) ≠ [] →
      r.floats.tail.headD 0 < 7/10 →
      get_easy_move g b legal r =
        randChoice (legal.filter (fun m => g.gives_check b m))
          ⟨r.floats.tail.tail, r.picks⟩) ∧
    (¬ r.floats.headD 0 < 1/10 → legal.filter (fun m => g.is_capture b m) = [] →
      legal.filter (fun m => g.gives_check b m) ≠ [] →
      ¬ r.floats.tail.headD 0 < 7/10 →
      get_easy_move g b legal r = randChoice legal ⟨r.floats.tail.tail, r.picks⟩) ∧
    (¬ r.floats.headD 0 < 1/10 → legal.filter (fun m => g.is_capture b m) = [] →
      legal.filter (fun m => g.gives_check b m) = [] →
      get_easy_move g b legal r = randChoice legal ⟨r.floats.tail, r.picks⟩) := by
  refine ⟨?_, ?_, ?_, ?_, ?_, ?_, ?_, ?_⟩
  · intro h1
    simp only [get_easy_move, RandSrc.nextFloat]
    rw [if_pos h1]
  · intro h1 hcap h2
    have hcap' : (!(legal.filter (fun m => g.is_capture b m)).isEmpty) = true := by
      simpa using hcap
    simp only [get_easy_move, RandSrc.nextFloat]
    rw [if_neg h1, if_pos hcap', if_pos h2]
  · intro h1 hcap h2 hchk h3
    have hcap' : (!(legal.filter (fun m => g.is_capture b m)).isEmpty) = true := by
      simpa using hcap
    have hchk' : (!(legal.filter (fun m => g.gives_check b m)).isEmpty) = true := by
      simpa using hchk
    simp only [get_easy_move, easy_check_phase, RandSrc.nextFloat]
    rw [if_neg h1, if_pos hcap', if_neg h2, if_pos hchk', if_pos h3]
  · intro h1 hcap h2 hchk h3
    have hcap' : (!(legal.filter (fun m => g.is_capture b m)).isEmpty) = true := by
      simpa using hcap
    have hchk' : (!(legal.filter (fun m => g.gives_check b m)).isEmpty) = true := by
      simpa using hchk
    simp only [get_easy_move, easy_check_phase, RandSrc.nextFloat]
    rw [if_neg h1, if_pos hcap', if_neg h2, if_pos hchk', if_neg h3]
  · intro h1 hcap h2 hchk
    have hcap' : (!(legal.filter (fun m => g.is_capture b m)).isEmpty) = true := by
      simpa using hcap
    have hchk' : ¬ (!(legal.filter (fun m => g.gives_check b m)).isEmpty) = true := by
      simp [hchk]
    simp only [get_easy_move, easy_check_phase, RandSrc.nextFloat]
    rw [if_neg h1, if_pos hcap', if_neg h2, if_neg hchk']
  · intro h1 hcap hchk h2
    have hcap' : ¬ (!(legal.filter (fun m => g.is_capture b m)).isEmpty) = true := by
      simp [hcap]
    have hchk' : (!(legal.filter (fun m => g.gives_check b m)).isEmpty) = true := by
      simpa using hchk
    simp only [get_easy_move, easy_check_phase, RandSrc.nextFloat]
    rw [if_neg h1, if_neg hcap', if_pos hchk', if_pos h2]
  · intro h1 hcap hchk h2
    have hcap' : ¬ (!(legal.filter (fun m => g.is_capture b m)).isEmpty) = true := by
      simp [hcap]
    have hchk' : (!(legal.filter (fun m => g.gives_check b m)).isEmpty) = true := by
      simpa using hchk
    simp only [get_easy_move, easy_check_phase, RandSrc.nextFloat]
    rw [if_neg h1, if_neg hcap', if_pos hchk', if_neg h2]
  · intro h1 hcap hchk
    have hcap' : ¬ (!(legal.filter (fun m => g.is_capture b m)).isEmpty) = true := by
      simp [hcap]
    have hchk' : ¬ (!(legal.filter (fun m => g.gives_check b m)).isEmpty) = true := by
      simp [hchk]
    simp only [get_easy_move, easy_check_phase, RandSrc.nextFloat]
    rw [if_neg h1, if_neg hcap', if_neg hchk']

/-- Witness for C5: the fall-through scenario the claim emphasizes (10%
gate not taken, captures exist, 80% roll fails, check gate taken). -/
theorem easy_move_gate_sequence_witness :
    get_easy_move gEasy 0 [0, 1, 2] ⟨[1/2, 9/10, 1/2], [0]⟩ = (some 2, ⟨[], []⟩) := by
  have h := (easy_move_gate_sequence gEasy 0 [0, 1, 2]
      ⟨[1/2, 9/10, 1/2], [0]⟩).2.2.1
    (by norm_num) (by decide) (by norm_num) (by decide) (by norm_num)
  rw [h]
  decide
